import Mathlib

/-!
Verification of the meadow SQL-agent repository: a shallow embedding of
`src/meadow/agent/data_agents/text2sql.py` and
`src/meadow/agent/data_agents/schema_renamer.py`, together with
spec-modelled fragments of the Schema Store (`meadow/database/database.py`),
the message history (`meadow/history/message_history.py`) and the agent
message schema, none of which are part of the two source files.

Strings are embedded as `List Char`; Python's `str.replace`, `str.strip`,
`in` and the concrete regular expressions of the source are embedded as
executable recursive scanners with the same left-to-right, non-overlapping
match semantics.
-/

/-- Python `pat in s` (substring test). -/
def containsSub (s pat : List Char) : Bool :=
  match s with
  | [] => pat.isPrefixOf ([] : List Char)
  | _ :: rest => pat.isPrefixOf s || containsSub rest pat

/-- Python `s.replace(pat, rep)`: replace every non-overlapping occurrence
of `pat`, scanning left to right.  The fuel argument only forces structural
recursion; each step consumes at least one character, so `s.length` fuel is
always enough.  (Python's behaviour on an empty pattern is never exercised
by the source; here an empty pattern replaces nothing.) -/
def strReplaceAux (pat rep : List Char) : Nat → List Char → List Char
  | _, [] => []
  | 0, c :: rest => c :: rest
  | fuel + 1, c :: rest =>
    if pat ≠ [] ∧ pat.isPrefixOf (c :: rest) then
      rep ++ strReplaceAux pat rep fuel (rest.drop (pat.length - 1))
    else
      c :: strReplaceAux pat rep fuel rest

def strReplace (s pat rep : List Char) : List Char :=
  strReplaceAux pat rep s.length s

deriving instance DecidableEq for Except

/-- Python `s.strip()`: drop leading and trailing whitespace. -/
def pyStrip (s : List Char) : List Char :=
  ((s.dropWhile Char.isWhitespace).reverse.dropWhile Char.isWhitespace).reverse

/-- Python `int` applied to a (decimal digit) string. -/
def pyInt (s : List Char) : Nat :=
  s.foldl (fun a c => a * 10 + (c.toNat - 48)) 0

/-- Python dict insertion `d[k] = v`: overwrite in place if the key exists
(keeping its position), otherwise append.  Embeds the insertion-ordered
dicts built by `parse_sqls`. -/
def dictInsert {α β : Type} [DecidableEq α] (d : List (α × β)) (k : α) (v : β) :
    List (α × β) :=
  if d.any (fun kv => decide (kv.1 = k)) then
    d.map (fun kv => if kv.1 = k then (k, v) else kv)
  else d ++ [(k, v)]

/-- Match the regex fragment `<sql\d+>` at the head of `s`; on success
return the matched characters and the remainder. -/
def matchTagAt (s : List Char) : Option (List Char × List Char) :=
  match s with
  | '<' :: 's' :: 'q' :: 'l' :: rest =>
    let ds := rest.takeWhile Char.isDigit
    if ds.isEmpty then none
    else
      match rest.drop ds.length with
      | '>' :: r => some (('<' :: 's' :: 'q' :: 'l' :: ds) ++ ['>'], r)
      | _ => none
  | _ => none

/-- Match the regex fragment `<\/sql\d+>` at the head of `s`. -/
def matchCloseAt (s : List Char) : Option (List Char × List Char) :=
  match s with
  | '<' :: '/' :: 's' :: 'q' :: 'l' :: rest =>
    let ds := rest.takeWhile Char.isDigit
    if ds.isEmpty then none
    else
      match rest.drop ds.length with
      | '>' :: r => some (('<' :: '/' :: 's' :: 'q' :: 'l' :: ds) ++ ['>'], r)
      | _ => none
  | _ => none

/-- Lazy `(.*?)` up to the earliest following `<\/sql\d+>` (DOTALL: any
character, newlines included).  Returns the skipped characters, the matched
closing tag and the remainder. -/
def scanClose : Nat → List Char → Option (List Char × List Char × List Char)
  | 0, _ => none
  | fuel + 1, s =>
    match matchCloseAt s with
    | some (m, r) => some ([], m, r)
    | none =>
      match s with
      | [] => none
      | c :: rest =>
        (scanClose fuel rest).map (fun x => (c :: x.1, x.2.1, x.2.2))

/-- `re.findall(r"(<sql\d+>(.*?)<\/sql\d+>)", message, re.DOTALL)`:
left-to-right non-overlapping scan; each match yields the whole matched
region and the lazy inner group. -/
def findSqlComponentsAux : Nat → List Char → List (List Char × List Char)
  | 0, _ => []
  | _ + 1, [] => []
  | fuel + 1, c :: rest =>
    match matchTagAt (c :: rest) with
    | some (openM, r1) =>
      match scanClose (r1.length + 1) r1 with
      | some (inner, closeM, r2) =>
        (openM ++ inner ++ closeM, inner) :: findSqlComponentsAux fuel r2
      | none => findSqlComponentsAux fuel rest
    | none => findSqlComponentsAux fuel rest

def findSqlComponents (message : List Char) : List (List Char × List Char) :=
  findSqlComponentsAux message.length message

/-- `re.search(r"<(sql\d+)>", s)` returning group 1 (`sql` plus digits). -/
def searchTagName : List Char → Option (List Char)
  | [] => none
  | c :: rest =>
    match matchTagAt (c :: rest) with
    | some (m, _) => some ((m.drop 1).dropLast)
    | none => searchTagName rest

/-- `parse_sqls` (text2sql.py lines 53-67): extract every tagged fragment,
key it by the first `<sql\d+>` tag of the match, delete every `;` from the
body and strip surrounding whitespace.  Raises `ValueError` (embedded as
`Except.error`) when no tagged fragment is present. -/
def parseSqlsStep (d : List (List Char × List Char)) (c : List Char × List Char) :
    List (List Char × List Char) :=
  match searchTagName c.1 with
  | some name => dictInsert d name (pyStrip (strReplace c.2 [';'] []))
  | none => d

def parse_sqls (message : List Char) :
    Except (List Char) (List (List Char × List Char)) :=
  if (findSqlComponents message).isEmpty then
    .error ("SQL not found in the response.".toList)
  else
    .ok ((findSqlComponents message).foldl parseSqlsStep [])

/-- Match the regex `\({0,1}<sql\d+>\){0,1}` at the head of `s`: an
optional opening parenthesis, a tag, an optional closing parenthesis
(both greedy). -/
def matchParenTagAt (s : List Char) : Option (List Char × List Char) :=
  match s with
  | '(' :: rest =>
    match matchTagAt rest with
    | some (m, r) =>
      match r with
      | ')' :: r2 => some (('(' :: m) ++ [')'], r2)
      | _ => some ('(' :: m, r)
    | none => none
  | _ =>
    match matchTagAt s with
    | some (m, r) =>
      match r with
      | ')' :: r2 => some (m ++ [')'], r2)
      | _ => some (m, r)
    | none => none

/-- `re.findall(r"\({0,1}<sql\d+>\){0,1}", sql)`. -/
def findallParenTagAux : Nat → List Char → List (List Char)
  | 0, _ => []
  | _ + 1, [] => []
  | fuel + 1, c :: rest =>
    match matchParenTagAt (c :: rest) with
    | some (m, r) => m :: findallParenTagAux fuel r
    | none => findallParenTagAux fuel rest

def findallParenTag (sql : List Char) : List (List Char) :=
  findallParenTagAux sql.length sql

/-- `replace_tag_with_table` (text2sql.py lines 41-50): for every matched
tag occurrence `tag`, replace it by `(SELECT * FROM ` ++ `tag[1:-1]` ++ `)`.
Note `tag[1:-1]` strips the first and last character of the *match*, which
is the surrounding parenthesis pair when the reference was written
parenthesized. -/
def replace_tag_with_table (sql : List Char) : List Char :=
  (findallParenTag sql).foldl
    (fun s tag =>
      strReplace s tag (("(SELECT * FROM ".toList) ++ ((tag.drop 1).dropLast) ++ [')']))
    sql

/-- `prettify_sql` (text2sql.py lines 29-38).  The external sqlglot
round-trip (an out-of-scope collaborator, spec section 1) is an oracle
`parse : List Char → Option (List Char)`: `some` is the pretty-printed
result, `none` is any raised exception, which the source catches, logs and
swallows, returning the input unchanged. -/
def prettify_sql (parse : List Char → Option (List Char)) (sql : List Char) :
    List Char :=
  match parse sql with
  | some s => s
  | none => sql

/-- Python `max(keys, key=lambda x: int(x[3:]))`: first element whose key
is strictly greater than every earlier one; `none` on an empty sequence
(where Python raises ValueError). -/
def pyMaxStep (b k : List Char) : List Char :=
  if pyInt (k.drop 3) > pyInt (b.drop 3) then k else b

def pyMaxByIntSuffix (ks : List (List Char)) : Option (List Char) :=
  match ks with
  | [] => none
  | k0 :: rest => some (rest.foldl pyMaxStep k0)

/-- Modelled from the spec: the `AgentMessage` schema
(`meadow/agent/schema.py` is not under `src/`); fields are the ones the two
source files construct or read (spec section 3, AgentMessage). -/
structure AgentMessage where
  role : List Char := []
  content : List Char := []
  display_content : Option (List Char) := none
  requires_response : Bool := false
  requires_execution : Bool := false
  is_termination_message : Bool := false
  sending_agent : List Char := []
  generating_agent : List Char := []
  receiving_agent : List Char := []
deriving DecidableEq

/-- Modelled from the spec: a table of the Schema Store
(`meadow/database/database.py` is not under `src/`).  `view_sql` is `some`
for a view and `none` for a base table (spec section 3, Table). -/
structure DbTable where
  name : List Char
  view_sql : Option (List Char)
deriving DecidableEq

/-- Modelled from the spec: the Schema Store as seen by the SQL generator —
a list of named tables/views (spec section 4.1). -/
structure Database where
  tables : List DbTable
deriving DecidableEq

/-- Modelled from the spec: `Database.get_table` resolves a name to its
registered table or view (spec section 4.1, `resolve`). -/
def get_table (db : Database) (k : List Char) : Option DbTable :=
  db.tables.find? (fun t => decide (t.name = k))

/-- Modelled from the spec: `Database.add_view` registers a new view under
a tag (spec section 4.1, `registerView`); only reached when the tag is not
yet registered. -/
def add_view (db : Database) (k sql : List Char) : Database :=
  ⟨db.tables ++ [⟨k, some sql⟩]⟩

/-- Modelled from the spec: `has_termination_condition`
(`meadow/agent/utils.py` is not under `src/`) — the termination token is
recognized verbatim anywhere in the output (spec section 6). -/
def has_termination_condition (content term : List Char) : Bool :=
  containsSub content term

/-- One iteration of the registration loop of
`SQLGeneratorAgent.generate_reply` (text2sql.py lines 185-193): a tag that
already resolves is skipped (the mismatch print is I/O only); otherwise the
fragment is rewritten over earlier tags, normalized (`normalize_query`, in
the missing database module, is an oracle) and registered as a view. -/
def registerStep (normalize : List Char → List Char) (db : Database)
    (kv : List Char × List Char) : Database :=
  match get_table db kv.1 with
  | some _ => db
  | none => add_view db kv.1 (normalize (replace_tag_with_table kv.2))

/-- The display text of the current result (text2sql.py lines 195-203):
the stored view SQL of the current tag is pretty-printed and, best-effort,
previewed (`run` is `none` when `run_sql_to_df` raised, which is caught and
only logged); a base table hit would carry Python's `None` through the
swallowed pretty-print and preview failures. -/
def sqlgenDisplay (parse run : List Char → Option (List Char)) (t : DbTable) :
    List Char :=
  ("SQL:\n".toList) ++
    (match t.view_sql with
     | some s => prettify_sql parse s
     | none => "None".toList) ++
    (match run (match t.view_sql with
                | some s => prettify_sql parse s
                | none => "None".toList) with
     | some d => ("\n\nTable:\n".toList) ++ d
     | none => [])

/-- The pure core of `SQLGeneratorAgent.generate_reply` (text2sql.py lines
170-210), from the model output `content` onward.  `normalize` embeds
`Database.normalize_query`, `parse` the sqlglot oracle of `prettify_sql`,
`run` embeds `run_sql_to_df(...).head(5).to_string()` (`none` = the caught
execution failure).  `Except.error` marks exceptions the source does not
catch (`ValueError` from `parse_sqls`, Python errors on an unregistered
current tag). -/
def sqlgen_process (term : List Char) (normalize : List Char → List Char)
    (parse : List Char → Option (List Char))
    (run : List Char → Option (List Char))
    (db : Database) (content : List Char) :
    Except (List Char) (Database × AgentMessage) :=
  if has_termination_condition content term then
    .ok (db,
      { role := "assistant".toList, content := content,
        generating_agent := "SQLGenerator".toList,
        is_termination_message := true })
  else
    match parse_sqls content with
    | .error e => .error e
    | .ok sql_dict =>
      match pyMaxByIntSuffix (sql_dict.map (fun kv => kv.1)) with
      | none => .error ("max() arg is an empty sequence".toList)
      | some largest_k =>
        match get_table (sql_dict.foldl (registerStep normalize) db) largest_k with
        | none => .error ("AttributeError: NoneType object has no attribute view_sql".toList)
        | some t =>
          .ok (sql_dict.foldl (registerStep normalize) db,
            { role := "assistant".toList, content := content,
              display_content := some (sqlgenDisplay parse run t),
              generating_agent := "SQLGenerator".toList })

/-- A remap payload as decoded from the model's JSON output: table name to
(column name to display name), both insertion-ordered as Python dicts. -/
abbrev Remap := List (List Char × List (List Char × List Char))

/-- Modelled from the spec: a foreign-key edge of the Schema Store — an
ordered pair of (table, canonical column) endpoints (spec section 3,
ForeignKeyEdge). -/
structure FKEdge where
  src : List Char × List Char
  dst : List Char × List Char
deriving DecidableEq

/-- Modelled from the spec: a base table of the Schema Store — name,
canonical column names and declared foreign-key edges (spec section 3). -/
structure SchemaTable where
  name : List Char
  cols : List (List Char)
  fks : List FKEdge
deriving DecidableEq

/-- Modelled from the spec: the Schema Store as seen by the schema renamer
(`meadow/database/database.py` is not under `src/`): base tables,
remaps committed by earlier successful turns, and provisional remaps of the
current turn, all per-table canonical-to-display maps (spec sections 3 and
4.1). -/
structure RenameDb where
  tables : List SchemaTable
  committed : Remap
  pending : Remap
deriving DecidableEq

/-- Modelled from the spec: the current display name of a column —
canonical name overridden by a committed remap, overridden in turn by a
provisional one (spec section 3, Column and ColumnRemap). -/
def displayName (db : RenameDb) (t c : List Char) : List Char :=
  match (db.pending.find? (fun e => decide (e.1 = t))).orElse
      (fun _ => db.committed.find? (fun e => decide (e.1 = t))) with
  | some e => ((e.2.find? (fun kv => decide (kv.1 = c))).map (fun kv => kv.2)).getD c
  | none => c

/-- Modelled from the spec: `get_non_matching_fks`
(`meadow/database/database.py` is not under `src/`) — the FK edges whose two
endpoints currently differ in display name (spec section 4.1,
`checkForeignKeyConsistency`). -/
def get_non_matching_fks (db : RenameDb) : List FKEdge :=
  (db.tables.foldr (fun t acc => t.fks ++ acc) []).filter
    (fun e => decide (displayName db e.src.1 e.src.2 ≠ displayName db e.dst.1 e.dst.2))

/-- Modelled from the spec: `Database.add_base_table_column_remap`
(`meadow/database/database.py` is not under `src/`) — records a provisional
per-table remap; raises (spec section 4.1, `applyColumnRemap`) when the
table is unknown or a mapped column is not a column of the table. -/
def add_base_table_column_remap (db : RenameDb) (t : List Char)
    (m : List (List Char × List Char)) : Except (List Char) RenameDb :=
  match db.tables.find? (fun tbl => decide (tbl.name = t)) with
  | none => .error (("InvalidRemapError: unknown table ".toList) ++ t)
  | some tbl =>
    if m.all (fun kv => decide (kv.1 ∈ tbl.cols)) then
      .ok { db with pending := dictInsert db.pending t m }
    else .error ("InvalidRemapError: unknown column".toList)

/-- Modelled from the spec: `Database.remove_base_table_remaps`
(`meadow/database/database.py` is not under `src/`) — atomically discards
every provisional remap applied since the last successful commit (spec
section 4.1, `discardPendingRemaps`). -/
def remove_base_table_remaps (db : RenameDb) : RenameDb :=
  { db with pending := [] }

/-- The duplicate-target scan of `parse_rename_and_update_db`
(schema_renamer.py lines 66-73): walking the values in order, the first
value already seen. -/
def findDupValueAux (seen : List (List Char)) : List (List Char) → Option (List Char)
  | [] => none
  | v :: rest => if v ∈ seen then some v else findDupValueAux (v :: seen) rest

def findDupValue (vals : List (List Char)) : Option (List Char) :=
  findDupValueAux [] vals

/-- The f-string of schema_renamer.py line 70: the message naming the
duplicate value and its table. -/
def dupText (v t : List Char) : List Char :=
  ("Duplicate column name \x27".toList) ++ v ++
    ("\x27 found in table \x27".toList) ++ t ++ ("\x27.".toList)

/-- One table of the duplicate loop: the guard is Python's
`len(set(col_map.values())) != len(col_map.values())` — the number of
distinct values (`List.dedup.length`) against the number of values — and
on a duplicate the inner scan names the first repeated value, overwriting
any error recorded for an earlier table. -/
def dupStep (acc : Option (List Char)) (tm : List Char × List (List Char × List Char)) :
    Option (List Char) :=
  if ((tm.2.map (fun kv => kv.2)).dedup).length ≠ (tm.2.map (fun kv => kv.2)).length then
    match findDupValue (tm.2.map (fun kv => kv.2)) with
    | some v => some (dupText v tm.1)
    | none => acc
  else acc

/-- The outer duplicate loop of `parse_rename_and_update_db`
(schema_renamer.py lines 62-73): every table is visited, so a duplicate in
a later table overwrites the error recorded for an earlier one. -/
def dupError (payload : Remap) : Option (List Char) :=
  payload.foldl dupStep none

/-- The remap-application loop of `parse_rename_and_update_db`
(schema_renamer.py lines 76-82): identity mappings are skipped; the first
raising table stops the loop with its error, leaving earlier tables'
provisional remaps in place. -/
def applyRemaps (db : RenameDb) : Remap → Option (List Char) × RenameDb
  | [] => (none, db)
  | (t, m) :: rest =>
    if m.any (fun kv => decide (kv.1 ≠ kv.2)) then
      match add_base_table_column_remap db t m with
      | .ok db' => applyRemaps db' rest
      | .error e =>
        (some (("Error adding the column remapping for table ".toList) ++ t ++
          (".\n".toList) ++ e), db)
    else applyRemaps db rest

/-- Modelled from the spec: the rendering of the non-matching FK list into
the f-string of schema_renamer.py lines 89-92 (the exact Python repr of the
pair list is fixed by the missing database module; claims never inspect this
text). -/
def reprFks (l : List FKEdge) : List Char :=
  l.foldr (fun e acc => e.src.1 ++ [ '.' ] ++ e.src.2 ++ (" != ".toList) ++
    e.dst.1 ++ [ '.' ] ++ e.dst.2 ++ [ '\n' ] ++ acc) []

/-- The fenced-block extraction
`re.findall(r"```json\n(.*?)\n```", content, re.DOTALL)` of
schema_renamer.py line 55: lazy inner group, non-overlapping left-to-right
scan. -/
def scanToMark (mark : List Char) : Nat → List Char → Option (List Char × List Char)
  | 0, _ => none
  | fuel + 1, s =>
    if mark.isPrefixOf s then some ([], s.drop mark.length)
    else
      match s with
      | [] => none
      | c :: rest => (scanToMark mark fuel rest).map (fun x => (c :: x.1, x.2))

def fenceFindallAux : Nat → List Char → List (List Char)
  | 0, _ => []
  | _ + 1, [] => []
  | fuel + 1, c :: rest =>
    if ("```json\n".toList).isPrefixOf (c :: rest) then
      match scanToMark ("\n```".toList) rest.length ((c :: rest).drop 8) with
      | some (inner, r) => inner :: fenceFindallAux fuel r
      | none => fenceFindallAux fuel rest
    else fenceFindallAux fuel rest

def fenceFindall (content : List Char) : List (List Char) :=
  fenceFindallAux content.length content

/-- The rejection return of `parse_rename_and_update_db` (schema_renamer.py
lines 94-101): the provisional remaps are discarded first, and the
correction message carries `requires_response = True`. -/
def renameReject (agent_name e : List Char) (db1 : RenameDb) :
    AgentMessage × RenameDb :=
  ({ role := "assistant".toList,
     content := e ++ (" Please regenerate mapping and try again.".toList),
     requires_response := true,
     sending_agent := agent_name },
   remove_base_table_remaps db1)

/-- The FK stage of `parse_rename_and_update_db` (schema_renamer.py lines
84-107), reached with no earlier error: a non-empty mismatch list turns
into a rejection, otherwise the confirmation is returned and the applied
remaps stay. -/
def renameFkCheck (agent_name : List Char) (db1 : RenameDb) :
    AgentMessage × RenameDb :=
  if (get_non_matching_fks db1).isEmpty then
    ({ role := "assistant".toList,
       content := "The schema has been updated.".toList,
       sending_agent := agent_name },
     db1)
  else
    renameReject agent_name
      (("The following FKs do not match:\n".toList) ++
        reprFks (get_non_matching_fks db1) ++
        ("\nThis may be ineviatable and if so, do not worry about changing anything and output the same remapping. Otherwise, please rename.".toList))
      db1

/-- `parse_rename_and_update_db` after a successful decode (schema_renamer.py
lines 62-107): the duplicate scan rejects without touching the store, a
raising remap application rejects on the partially-applied store (whose
provisional part the rejection then discards), otherwise the FK stage
decides. -/
def renameAfterParse (agent_name : List Char) (db : RenameDb) (payload : Remap) :
    AgentMessage × RenameDb :=
  match dupError payload with
  | some e => renameReject agent_name e db
  | none =>
    match applyRemaps db payload with
    | (some e, db1) => renameReject agent_name e db1
    | (none, db1) => renameFkCheck agent_name db1

/-- `parse_rename_and_update_db` (schema_renamer.py lines 44-107).
`jsonLoads` is the oracle for Python's `json.loads` restricted to the
expected payload shape: `none` covers both a `JSONDecodeError` and a decode
to any other shape, in either of which the source crashes — after a
`JSONDecodeError` the handler records `error_message` but `content` is still
the original `str`, so the very next line `content.items()` raises an
uncaught `AttributeError`; a fenced block with no terminated body raises
`IndexError` on `[-1]`.  Both escapes are embedded as `Except.error`. -/
def parse_rename_and_update_db (jsonLoads : List Char → Option Remap)
    (messages : List AgentMessage) (agent_name : List Char) (db : RenameDb)
    ( can_reask_again : Bool) : Except (List Char) (AgentMessage × RenameDb) :=
  match messages.getLast? with
  | none => .error ("IndexError: list index out of range".toList)
  | some last =>
    match (if containsSub last.content ("```json".toList) then
        (fenceFindall last.content).getLast?
      else some last.content) with
    | none => .error ("IndexError: list index out of range".toList)
    | some json_content =>
      match jsonLoads json_content with
      | none => .error ("AttributeError: \x27str\x27 object has no attribute \x27items\x27".toList)
      | some payload => .ok (renameAfterParse agent_name db payload)

/-- Modelled from the spec: `MessageHistory`
(`meadow/history/message_history.py` is not under `src/`) — for each
communication partner an ordered, append-only sequence of messages (spec
section 3, MessageHistory). -/
abbrev MessageHistory := List (List Char × List AgentMessage)

def getMsgs (h : MessageHistory) (p : List Char) : List AgentMessage :=
  match h.find? (fun e => decide (e.1 = p)) with
  | some e => e.2
  | none => []

def setMsgs (h : MessageHistory) (p : List Char) (ms : List AgentMessage) :
    MessageHistory :=
  if h.any (fun e => decide (e.1 = p)) then
    h.map (fun e => if e.1 = p then (p, ms) else e)
  else h ++ [(p, ms)]

/-- Modelled from the spec: `MessageHistory.add_message(agent, role,
message)` — append the message, under the given role, to the partner's
sequence (spec section 3: per-partner ordered log, only appended to; the
log is handed out by reference to its owning agent, spec section 9). -/
def add_message (h : MessageHistory) (p role : List Char) (msg : AgentMessage) :
    MessageHistory :=
  setMsgs h p (getMsgs h p ++ [{ msg with role := role }])

/-- `SQLGeneratorAgent.send` (text2sql.py lines 121-131), effect on the
sender's own history: a missing message raises `ValueError`; otherwise the
message is appended under role `assistant` for the recipient. -/
def sqlgen_send (h : MessageHistory) (recipient : List Char)
    (msg : Option AgentMessage) : Except (List Char) MessageHistory :=
  match msg with
  | none => .error ("Message is empty".toList)
  | some m => .ok (add_message h recipient ("assistant".toList) m)

/-- `SQLGeneratorAgent.receive` (text2sql.py lines 133-150), effect on the
receiver's history: the incoming message is appended under role `user`, the
reply (whose computation by `generate_reply` reads but never writes the
history) is appended under role `assistant` by the nested `send`. -/
def sqlgen_receive_hist (h : MessageHistory) (sender : List Char)
    (incoming reply : AgentMessage) : MessageHistory :=
  add_message (add_message h sender ("user".toList) incoming) sender
    ("assistant".toList) reply

/-- In-place update `messages[0].content = newContent` on a list of
messages (no-op on an empty list, where Python would raise). -/
def overwriteHeadContent (newContent : List Char) :
    List AgentMessage → List AgentMessage
  | [] => []
  | m :: rest => { m with content := newContent } :: rest

/-- `SchemaRenamerAgent.receive` (schema_renamer.py lines 202-219), effect
on the receiver's history.  `generate_reply` (lines 221-252) is called on
`self._messages.get_messages(sender)` — the stored list itself — and its
first statement `messages[0].content = "My schema is\n" +
serialize_as_list(self.database.tables)` overwrites the content of the
first stored message (`schemaText` is the oracle for the missing
serializer).  The nested `send` (lines 189-200) then sets the reply's
`receiving_agent` and appends it under role `assistant`. -/
def schemaRenamer_receive_hist (schemaText : List Char) (h : MessageHistory)
    (sender : List Char) (incoming reply : AgentMessage) : MessageHistory :=
  let h1 := add_message h sender ("user".toList) incoming
  let h2 := setMsgs h1 sender
    (overwriteHeadContent (("My schema is\n".toList) ++ schemaText) (getMsgs h1 sender))
  add_message h2 sender ("assistant".toList)
    { reply with receiving_agent := sender }

theorem mem_dictInsert {α β : Type} [DecidableEq α] {d : List (α × β)} {k : α}
    {v : β} {kv : α × β} (h : kv ∈ dictInsert d k v) : kv ∈ d ∨ kv = (k, v) := by
  unfold dictInsert at h
  split at h
  · rcases List.mem_map.mp h with ⟨a, ha, he⟩
    by_cases hak : a.1 = k
    · right
      rw [if_pos hak] at he
      exact he.symm
    · left
      rw [if_neg hak] at he
      exact he ▸ ha
  · rcases List.mem_append.mp h with h | h
    · exact Or.inl h
    · right
      simpa using h

theorem semi_not_mem_strReplaceAux :
    ∀ (fuel : Nat) (s : List Char), s.length ≤ fuel →
      ';' ∉ strReplaceAux [';'] [] fuel s := by
  intro fuel
  induction fuel with
  | zero =>
    intro s hs
    cases s with
    | nil => simp [strReplaceAux]
    | cons c rest => simp at hs
  | succ n ih =>
    intro s hs
    cases s with
    | nil => simp [strReplaceAux]
    | cons c rest =>
      simp only [strReplaceAux]
      by_cases hc : c = ';'
      · rw [if_pos]
        · simp only [List.nil_append, List.length_cons, List.length_nil]
          have : rest.drop (1 - 1) = rest := by simp
          rw [this]
          exact ih rest (by simpa using Nat.le_of_succ_le_succ hs)
        · subst hc
          exact ⟨by simp, by simp [List.isPrefixOf]⟩
      · rw [if_neg]
        · intro hmem
          rcases List.mem_cons.mp hmem with h | h
          · exact hc h.symm
          · exact ih rest (by simpa using Nat.le_of_succ_le_succ hs) h
        · intro hcond
          have hpre := hcond.2
          simp [List.isPrefixOf] at hpre
          exact hc hpre.symm

theorem semi_not_mem_strReplace (s : List Char) : ';' ∉ strReplace s [';'] [] :=
  semi_not_mem_strReplaceAux s.length s (Nat.le_refl _)

theorem mem_of_mem_pyStrip {x : Char} {l : List Char} (h : x ∈ pyStrip l) :
    x ∈ l := by
  unfold pyStrip at h
  rw [List.mem_reverse] at h
  have h1 := ((List.dropWhile_suffix _).sublist).mem h
  rw [List.mem_reverse] at h1
  exact ((List.dropWhile_suffix _).sublist).mem h1

theorem parse_sqls_foldl_no_semi :
    ∀ (comps : List (List Char × List Char)) (acc : List (List Char × List Char)),
      (∀ kv ∈ acc, ';' ∉ kv.2) →
      ∀ kv ∈ comps.foldl parseSqlsStep acc, ';' ∉ kv.2 := by
  intro comps
  induction comps with
  | nil =>
    intro acc hacc kv hkv
    exact hacc kv hkv
  | cons c rest ih =>
    intro acc hacc kv hkv
    simp only [List.foldl_cons] at hkv
    refine ih (parseSqlsStep acc c) ?_ kv hkv
    intro kv' hkv'
    unfold parseSqlsStep at hkv'
    split at hkv'
    · rcases mem_dictInsert hkv' with h | h
      · exact hacc kv' h
      · subst h
        intro hsem
        exact semi_not_mem_strReplace c.2 (mem_of_mem_pyStrip hsem)
    · exact hacc kv' hkv'

/-- C4 (corrected claim): the parser does not strip one trailing semicolon —
it deletes every semicolon character anywhere in the fragment body (also
those between statements or inside string literals), then strips the
surrounding whitespace; consequently no parsed body ever contains a
semicolon. -/
theorem parse_sqls_removes_all_semicolons :
    (∀ (message : List Char) (d : List (List Char × List Char)),
      parse_sqls message = .ok d → ∀ kv ∈ d, ';' ∉ kv.2) ∧
    parse_sqls ("<sql1>  SELECT a FROM t; SELECT b FROM t;  </sql1>".toList)
      = .ok [("sql1".toList, "SELECT a FROM t SELECT b FROM t".toList)] := by
  constructor
  · intro message d h kv hkv
    unfold parse_sqls at h
    split at h
    · exact absurd h (by simp)
    · rw [Except.ok.injEq] at h
      subst h
      exact parse_sqls_foldl_no_semi _ [] (by simp) kv hkv
  · decide

/-- C4 witness: the general part of the amended theorem applied to the
concrete two-statement fragment. -/
theorem parse_sqls_removes_all_semicolons_witness :
    ';' ∉ (("sql1".toList, "SELECT a FROM t SELECT b FROM t".toList) :
        List Char × List Char).2 :=
  parse_sqls_removes_all_semicolons.1
    ("<sql1>SELECT a FROM t; SELECT b FROM t;</sql1>".toList)
    [("sql1".toList, "SELECT a FROM t SELECT b FROM t".toList)]
    (by decide) _ (by decide)

/-- C4 counterexample: on a fragment whose body holds two statements and a
trailing terminator, the claim predicts that only the single trailing
semicolon is stripped and the inner one kept; the code instead removes
both. -/
theorem parse_sqls_single_terminator_refuted :
    parse_sqls ("<sql1>SELECT a FROM t; SELECT b FROM t;</sql1>".toList)
      = .ok [("sql1".toList, "SELECT a FROM t SELECT b FROM t".toList)] ∧
    parse_sqls ("<sql1>SELECT a FROM t; SELECT b FROM t;</sql1>".toList)
      ≠ .ok [("sql1".toList, "SELECT a FROM t; SELECT b FROM t".toList)] := by
  exact ⟨by decide, by decide⟩

theorem pyMaxFold_mem :
    ∀ (ks : List (List Char)) (b : List Char), ks.foldl pyMaxStep b ∈ b :: ks := by
  intro ks
  induction ks with
  | nil => intro b; simp
  | cons k rest ih =>
    intro b
    simp only [List.foldl_cons]
    have h := ih (pyMaxStep b k)
    unfold pyMaxStep at h ⊢
    by_cases hc : pyInt (k.drop 3) > pyInt (b.drop 3)
    · rw [if_pos hc] at h ⊢
      exact List.mem_cons_of_mem b h
    · rw [if_neg hc] at h ⊢
      rcases List.mem_cons.mp h with h | h
      · exact List.mem_cons.mpr (Or.inl h)
      · exact List.mem_cons_of_mem _ (List.mem_cons_of_mem _ h)

theorem pyMaxFold_le_seed :
    ∀ (ks : List (List Char)) (b : List Char),
      pyInt (b.drop 3) ≤ pyInt ((ks.foldl pyMaxStep b).drop 3) := by
  intro ks
  induction ks with
  | nil => intro b; simp
  | cons k rest ih =>
    intro b
    simp only [List.foldl_cons]
    refine le_trans ?_ (ih (pyMaxStep b k))
    unfold pyMaxStep
    split
    · omega
    · exact le_refl _

theorem pyMaxFold_le :
    ∀ (ks : List (List Char)) (b x : List Char), x ∈ ks →
      pyInt (x.drop 3) ≤ pyInt ((ks.foldl pyMaxStep b).drop 3) := by
  intro ks
  induction ks with
  | nil =>
    intro b x hx
    cases hx
  | cons k rest ih =>
    intro b x hx
    simp only [List.foldl_cons]
    rcases List.mem_cons.mp hx with h | h
    · subst h
      refine le_trans ?_ (pyMaxFold_le_seed rest (pyMaxStep b x))
      unfold pyMaxStep
      split
      · exact le_refl _
      · omega
    · exact ih (pyMaxStep b k) x h

/-- C8: the fragment chosen as the turn's current result is the key with the
numerically largest integer suffix (`int(x[3:])` under `max`), not the
lexicographically largest; in particular the message introducing tags
`sql2`, `sql10`, `sql1` selects `sql10`. -/
theorem sqlgen_current_result_has_max_int_suffix :
    (∀ (ks : List (List Char)) (m : List Char), pyMaxByIntSuffix ks = some m →
      m ∈ ks ∧ ∀ k ∈ ks, pyInt (k.drop 3) ≤ pyInt (m.drop 3)) ∧
    (parse_sqls ("<sql2>SELECT 2</sql2> <sql10>SELECT 10</sql10> <sql1>SELECT 1</sql1>".toList)).map
        (fun d => pyMaxByIntSuffix (d.map (fun kv => kv.1)))
      = .ok (some ("sql10".toList)) := by
  constructor
  · intro ks m h
    cases ks with
    | nil => exact absurd h (by simp [pyMaxByIntSuffix])
    | cons k0 rest =>
      simp only [pyMaxByIntSuffix, Option.some.injEq] at h
      subst h
      refine ⟨pyMaxFold_mem rest k0, ?_⟩
      intro k hk
      rcases List.mem_cons.mp hk with h | h
      · subst h
        exact pyMaxFold_le_seed rest k
      · exact pyMaxFold_le rest k0 k h
  · decide

/-- C8 witness: the maximality statement applied to the concrete key set
`sql2`, `sql10`, `sql1`: the chosen key `sql10` is among the keys and its
integer suffix dominates the suffix of `sql2`. -/
theorem sqlgen_current_result_has_max_int_suffix_witness :
    "sql10".toList ∈ ["sql2".toList, "sql10".toList, "sql1".toList] ∧
    pyInt (("sql2".toList).drop 3) ≤ pyInt (("sql10".toList).drop 3) :=
  ⟨(sqlgen_current_result_has_max_int_suffix.1
      ["sql2".toList, "sql10".toList, "sql1".toList] ("sql10".toList) (by decide)).1,
   (sqlgen_current_result_has_max_int_suffix.1
      ["sql2".toList, "sql10".toList, "sql1".toList] ("sql10".toList) (by decide)).2
     ("sql2".toList) (by decide)⟩

/-- C9: a model output holding the termination token verbatim yields a
reply flagged as a termination message, with the database state returned
untouched and no parsing or registration performed; a model output with no
tagged fragment and no termination token escapes with the hard
`NoSqlFoundError`-style `ValueError` of `parse_sqls`. -/
theorem sqlgen_termination_vs_no_sql :
    (∀ (term : List Char) (normalize : List Char → List Char)
        (parse run : List Char → Option (List Char)) (db : Database)
        (content : List Char),
      has_termination_condition content term = true →
      sqlgen_process term normalize parse run db content =
        .ok (db, { role := "assistant".toList, content := content,
                   generating_agent := "SQLGenerator".toList,
                   is_termination_message := true })) ∧
    (∀ (term : List Char) (normalize : List Char → List Char)
        (parse run : List Char → Option (List Char)) (db : Database)
        (content : List Char),
      has_termination_condition content term = false →
      findSqlComponents content = [] →
      sqlgen_process term normalize parse run db content =
        .error ("SQL not found in the response.".toList)) := by
  constructor
  · intro term normalize parse run db content h
    unfold sqlgen_process
    simp [h]
  · intro term normalize parse run db content h1 h2
    unfold sqlgen_process
    simp [h1, parse_sqls, h2]

/-- C9 witness: both branches at concrete inputs — an output containing the
default token `<exit>` terminates with the store untouched; a taggless,
tokenless output raises. -/
theorem sqlgen_termination_vs_no_sql_witness :
    sqlgen_process ("<exit>".toList) id (fun _ => none) (fun _ => none)
        ⟨[⟨"orders".toList, none⟩]⟩ ("Looks good. <exit>".toList) =
      .ok (⟨[⟨"orders".toList, none⟩]⟩,
        { role := "assistant".toList, content := "Looks good. <exit>".toList,
          generating_agent := "SQLGenerator".toList,
          is_termination_message := true }) ∧
    sqlgen_process ("<exit>".toList) id (fun _ => none) (fun _ => none)
        ⟨[⟨"orders".toList, none⟩]⟩ ("There is no query here.".toList) =
      .error ("SQL not found in the response.".toList) :=
  ⟨sqlgen_termination_vs_no_sql.1 _ id _ _ _ _ (by decide),
   sqlgen_termination_vs_no_sql.2 _ id _ _ _ _ (by decide) (by decide)⟩

/-- C10: `prettify_sql` never escapes — the sqlglot failure (oracle `none`)
is caught and the original input is returned unchanged; totality on every
string input is structural (the embedding returns `List Char`, mirroring
the function's single `return sql` after the swallowed exception). -/
theorem prettify_sql_total_identity_on_failure
    (parse : List Char → Option (List Char)) (sql : List Char)
    (h : parse sql = none) : prettify_sql parse sql = sql := by
  unfold prettify_sql
  rw [h]

/-- C10 witness: a parser that always fails leaves the concrete input
unchanged. -/
theorem prettify_sql_total_identity_on_failure_witness :
    prettify_sql (fun _ => none) ("SELEKT 1 FRUM t".toList) =
      "SELEKT 1 FRUM t".toList :=
  prettify_sql_total_identity_on_failure (fun _ => none) _ rfl

/-- C1 (code bug): on end-to-end scenario C the parser extracts the two
bodies, and the rewrite of `sql2`'s body produces
`SELECT count(*) FROM (SELECT * FROM <sql1>)` — the parenthesized
reference `(<sql1>)` is matched with its parentheses, so `tag[1:-1]` strips
them instead of the angle brackets and the tag token survives inside the
subquery, instead of the claimed `SELECT count(*) FROM (SELECT * FROM sql1)`.
A bare reference (last conjunct) is rewritten as the claim states. -/
theorem replace_tag_keeps_brackets_on_paren_reference :
    parse_sqls ("<sql1>SELECT * FROM orders</sql1> <sql2>SELECT count(*) FROM (<sql1>)</sql2>".toList)
      = .ok [("sql1".toList, "SELECT * FROM orders".toList),
             ("sql2".toList, "SELECT count(*) FROM (<sql1>)".toList)] ∧
    replace_tag_with_table ("SELECT count(*) FROM (<sql1>)".toList)
      = "SELECT count(*) FROM (SELECT * FROM <sql1>)".toList ∧
    replace_tag_with_table ("SELECT count(*) FROM (<sql1>)".toList)
      ≠ "SELECT count(*) FROM (SELECT * FROM sql1)".toList ∧
    replace_tag_with_table ("SELECT count(*) FROM <sql1>".toList)
      = "SELECT count(*) FROM (SELECT * FROM sql1)".toList :=
  ⟨by decide, by decide, by decide, by decide⟩

/-- C3 (code bug): a malformed structured payload does not produce the
correction message the source prepares — after the caught
`JSONDecodeError` the name `content` is still the original `str`, so
`content.items()` raises an uncaught `AttributeError` (first conjunct: bare
malformed content; second: a fenced ```json block whose body fails to
decode); an opened but unterminated fence dies earlier on the `[-1]` index
(third conjunct). -/
theorem rename_malformed_payload_escapes :
    parse_rename_and_update_db (fun _ => none)
        [{ role := "user".toList, content := "this is not a JSON object".toList }]
        ("SchemaRenamer".toList)
        ⟨[⟨"orders".toList, ["oid".toList, "cust_id".toList], []⟩], [], []⟩ true
      = .error ("AttributeError: \x27str\x27 object has no attribute \x27items\x27".toList) ∧
    parse_rename_and_update_db (fun _ => none)
        [{ role := "user".toList,
           content := "```json\n\x7b\"orders\": \x7d\n```".toList }]
        ("SchemaRenamer".toList)
        ⟨[⟨"orders".toList, ["oid".toList, "cust_id".toList], []⟩], [], []⟩ true
      = .error ("AttributeError: \x27str\x27 object has no attribute \x27items\x27".toList) ∧
    parse_rename_and_update_db (fun _ => none)
        [{ role := "user".toList, content := "```json\nnever closed".toList }]
        ("SchemaRenamer".toList)
        ⟨[⟨"orders".toList, ["oid".toList, "cust_id".toList], []⟩], [], []⟩ true
      = .error ("IndexError: list index out of range".toList) :=
  ⟨by decide, by decide, by decide⟩

theorem add_remap_preserves {db : RenameDb} {t : List Char}
    {m : List (List Char × List Char)} {db' : RenameDb}
    (h : add_base_table_column_remap db t m = .ok db') :
    db'.tables = db.tables ∧ db'.committed = db.committed := by
  unfold add_base_table_column_remap at h
  split at h
  · exact absurd h (by simp)
  · split at h
    · rw [Except.ok.injEq] at h
      subst h
      exact ⟨rfl, rfl⟩
    · exact absurd h (by simp)

theorem applyRemaps_preserves :
    ∀ (payload : Remap) (db : RenameDb),
      (applyRemaps db payload).2.tables = db.tables ∧
      (applyRemaps db payload).2.committed = db.committed := by
  intro payload
  induction payload with
  | nil =>
    intro db
    exact ⟨rfl, rfl⟩
  | cons tm rest ih =>
    intro db
    obtain ⟨t, m⟩ := tm
    simp only [applyRemaps]
    split
    · cases hadd : add_base_table_column_remap db t m with
      | ok db1 =>
        have hp := add_remap_preserves hadd
        have h2 := ih db1
        simp only [hadd]
        exact ⟨h2.1.trans hp.1, h2.2.trans hp.2⟩
      | error e =>
        simp only [hadd]
        refine ⟨?_, ?_⟩ <;> trivial
    · exact ih db

theorem renameAfterParse_rejected (agent_name : List Char) (db : RenameDb)
    (payload : Remap) :
    (renameAfterParse agent_name db payload).1.requires_response = true →
    (renameAfterParse agent_name db payload).2.pending = [] ∧
    (renameAfterParse agent_name db payload).2.tables = db.tables ∧
    (renameAfterParse agent_name db payload).2.committed = db.committed := by
  intro h
  cases hdup : dupError payload with
  | some e =>
    simp only [renameAfterParse, hdup]
    refine ⟨?_, ?_, ?_⟩ <;> trivial
  | none =>
    cases happ : applyRemaps db payload with
    | mk e? db1 =>
      have hpres := applyRemaps_preserves payload db
      rw [happ] at hpres
      cases e? with
      | some e =>
        simp only [renameAfterParse, hdup, happ]
        refine ⟨?_, ?_, ?_⟩
        · trivial
        · exact hpres.1
        · exact hpres.2
      | none =>
        simp only [renameAfterParse, hdup, happ] at h ⊢
        unfold renameFkCheck at h ⊢
        by_cases hc : (get_non_matching_fks db1).isEmpty = true
        · rw [if_pos hc] at h
          exact Bool.noConfusion h
        · rw [if_neg hc]
          refine ⟨?_, ?_, ?_⟩
          · trivial
          · exact hpres.1
          · exact hpres.2

theorem renameAfterParse_success (agent_name : List Char) (db : RenameDb)
    (payload : Remap) :
    (renameAfterParse agent_name db payload).1.requires_response = false →
    get_non_matching_fks (renameAfterParse agent_name db payload).2 = [] := by
  intro h
  cases hdup : dupError payload with
  | some e =>
    simp only [renameAfterParse, hdup] at h
    exact Bool.noConfusion h
  | none =>
    cases happ : applyRemaps db payload with
    | mk e? db1 =>
      cases e? with
      | some e =>
        simp only [renameAfterParse, hdup, happ] at h
        exact Bool.noConfusion h
      | none =>
        simp only [renameAfterParse, hdup, happ] at h ⊢
        unfold renameFkCheck at h ⊢
        by_cases hc : (get_non_matching_fks db1).isEmpty = true
        · rw [if_pos hc]
          exact List.isEmpty_iff.mp hc
        · rw [if_neg hc] at h
          exact Bool.noConfusion h

/-- The concrete schema of the end-to-end scenarios: `orders(oid, cust_id)`
and `customers(id, name)` with the FK `orders.cust_id -> customers.id`. -/
def ordersTable : SchemaTable :=
  ⟨"orders".toList, ["oid".toList, "cust_id".toList],
   [⟨("orders".toList, "cust_id".toList), ("customers".toList, "id".toList)⟩]⟩

def customersTable : SchemaTable :=
  ⟨"customers".toList, ["id".toList, "name".toList], []⟩

def scenarioDb : RenameDb :=
  ⟨[ordersTable, customersTable], [], []⟩

def scenarioBPayload : Remap :=
  [("orders".toList, [("cust_id".toList, "name".toList),
                      ("oid".toList, "name".toList)])]

def scenarioBContent : List Char :=
  "\x7b\"orders\": \x7b\"cust_id\": \"name\", \"oid\": \"name\"\x7d\x7d".toList

def scenarioBLoads : List Char → Option Remap :=
  fun s => if s = scenarioBContent then some scenarioBPayload else none

theorem findDupValueAux_eq_none :
    ∀ (vals seen : List (List Char)),
      findDupValueAux seen vals = none →
      vals.Nodup ∧ ∀ v ∈ vals, v ∉ seen := by
  intro vals
  induction vals with
  | nil =>
    intro seen _
    exact ⟨List.nodup_nil, by simp⟩
  | cons x rest ih =>
    intro seen h
    unfold findDupValueAux at h
    split at h
    · exact Option.noConfusion h
    · rename_i hx
      obtain ⟨hnd, hni⟩ := ih (x :: seen) h
      have hxr : x ∉ rest := fun hmem => (hni x hmem) (List.mem_cons_self x seen)
      refine ⟨List.nodup_cons.mpr ⟨hxr, hnd⟩, ?_⟩
      intro v hv
      rcases List.mem_cons.mp hv with rfl | hv'
      · exact hx
      · exact fun hs => (hni v hv') (List.mem_cons_of_mem _ hs)

theorem findDupValue_of_not_nodup {vals : List (List Char)}
    (h : ¬ vals.Nodup) : ∃ v, findDupValue vals = some v := by
  cases hf : findDupValue vals with
  | some v => exact ⟨v, rfl⟩
  | none => exact absurd (findDupValueAux_eq_none vals [] hf).1 h

theorem findDupValueAux_count :
    ∀ (vals seen : List (List Char)) (v : List Char),
      findDupValueAux seen vals = some v →
      (v ∈ seen ∧ v ∈ vals) ∨ 2 ≤ vals.count v := by
  intro vals
  induction vals with
  | nil =>
    intro seen v h
    exact Option.noConfusion h
  | cons x rest ih =>
    intro seen v h
    unfold findDupValueAux at h
    split at h
    · rename_i hx
      rw [Option.some.injEq] at h
      subst h
      exact Or.inl ⟨hx, List.mem_cons_self _ _⟩
    · rcases ih (x :: seen) v h with ⟨hs, hm⟩ | hc
      · rcases List.mem_cons.mp hs with rfl | hs'
        · right
          have hcount : 0 < rest.count v := List.count_pos_iff.mpr hm
          rw [List.count_cons]
          have hvv : (v == v) = true := beq_self_eq_true v
          rw [if_pos hvv]
          omega
        · exact Or.inl ⟨hs', List.mem_cons_of_mem _ hm⟩
      · right
        rw [List.count_cons]
        split <;> omega

theorem findDupValue_count {vals : List (List Char)} {v : List Char}
    (h : findDupValue vals = some v) : 2 ≤ vals.count v := by
  rcases findDupValueAux_count vals [] v h with ⟨hs, -⟩ | hc
  · cases hs
  · exact hc

theorem dedup_length_ne_iff (vals : List (List Char)) :
    (vals.dedup).length ≠ vals.length ↔ ¬ vals.Nodup := by
  constructor
  · intro h hnd
    exact h (by rw [hnd.dedup])
  · intro hnd h
    exact hnd (((List.dedup_sublist vals).eq_of_length h) ▸ List.nodup_dedup vals)

theorem dupStep_of_nodup (acc : Option (List Char))
    (tm : List Char × List (List Char × List Char))
    (h : (tm.2.map (fun kv => kv.2)).Nodup) : dupStep acc tm = acc := by
  unfold dupStep
  rw [if_neg (fun hne => ((dedup_length_ne_iff _).mp hne) h)]

theorem dupStep_of_dup (acc : Option (List Char))
    (tm : List Char × List (List Char × List Char))
    (h : ¬ (tm.2.map (fun kv => kv.2)).Nodup) :
    ∃ v, findDupValue (tm.2.map (fun kv => kv.2)) = some v ∧
      dupStep acc tm = some (dupText v tm.1) := by
  obtain ⟨v, hv⟩ := findDupValue_of_not_nodup h
  refine ⟨v, hv, ?_⟩
  unfold dupStep
  rw [if_pos ((dedup_length_ne_iff _).mpr h), hv]

theorem dupFold_nodup :
    ∀ (payload : Remap) (acc : Option (List Char)),
      (∀ tm ∈ payload, (tm.2.map (fun kv => kv.2)).Nodup) →
      payload.foldl dupStep acc = acc := by
  intro payload
  induction payload with
  | nil =>
    intro acc _
    rfl
  | cons tm rest ih =>
    intro acc h
    simp only [List.foldl_cons]
    rw [dupStep_of_nodup acc tm (h tm (List.mem_cons_self _ _))]
    exact ih acc (fun tm1 htm1 => h tm1 (List.mem_cons_of_mem _ htm1))

theorem dupFold_some :
    ∀ (payload : Remap) (acc : Option (List Char)),
      (∃ tm ∈ payload, ¬ (tm.2.map (fun kv => kv.2)).Nodup) →
      ∃ t m v, (t, m) ∈ payload ∧
        findDupValue (m.map (fun kv => kv.2)) = some v ∧
        payload.foldl dupStep acc = some (dupText v t) := by
  intro payload
  induction payload with
  | nil =>
    intro acc h
    rcases h with ⟨tm, htm, -⟩
    cases htm
  | cons tm rest ih =>
    intro acc hex
    simp only [List.foldl_cons]
    by_cases hrest : ∃ tm1 ∈ rest, ¬ (tm1.2.map (fun kv => kv.2)).Nodup
    · obtain ⟨t, m, v, hmem, hfind, heq⟩ := ih (dupStep acc tm) hrest
      exact ⟨t, m, v, List.mem_cons_of_mem _ hmem, hfind, heq⟩
    · have hall : ∀ tm1 ∈ rest, (tm1.2.map (fun kv => kv.2)).Nodup := by
        intro tm1 htm1
        by_contra hc
        exact hrest ⟨tm1, htm1, hc⟩
      have htm : ¬ (tm.2.map (fun kv => kv.2)).Nodup := by
        rcases hex with ⟨tm1, htm1, hnd⟩
        rcases List.mem_cons.mp htm1 with rfl | hr
        · exact hnd
        · exact absurd (hall tm1 hr) hnd
      obtain ⟨v, hfind, hstep⟩ := dupStep_of_dup acc tm htm
      rw [hstep, dupFold_nodup rest _ hall]
      exact ⟨tm.1, tm.2, v, List.mem_cons_self _ _, hfind, rfl⟩

/-- C2: (i) every decoded payload holding a table whose mapping sends two
different columns to one display name makes the duplicate scan report: it
names a target value `v` genuinely repeated (occurring at least twice)
among the values of a table `t` of the payload; (ii) whenever the
duplicate scan reports `e`, the call returns the rejection whose content is
`e` plus the retry suffix, with `requires_response` set, and the store with
its provisional remaps discarded; (iii) every returned rejection has
discarded the provisional remaps — tables and committed remaps untouched —
so with no remap pending at entry the store is returned exactly as it was;
(iv) scenario B concretely: the duplicate `name` in table `orders` is
rejected by name and the store comes back unchanged. -/
theorem rename_duplicate_rejected_and_discarded :
    (∀ (payload : Remap),
      (∃ tm ∈ payload, ¬ (tm.2.map (fun kv => kv.2)).Nodup) →
      ∃ t m v, (t, m) ∈ payload ∧
        2 ≤ (m.map (fun kv => kv.2)).count v ∧
        dupError payload = some (dupText v t)) ∧
    (∀ (jsonLoads : List Char → Option Remap) (messages : List AgentMessage)
        (agent_name : List Char) (db : RenameDb) (can : Bool)
        (last : AgentMessage) (json_content : List Char) (payload : Remap)
        (e : List Char),
      messages.getLast? = some last →
      (if containsSub last.content ("```json".toList) then
          (fenceFindall last.content).getLast?
        else some last.content) = some json_content →
      jsonLoads json_content = some payload →
      dupError payload = some e →
      parse_rename_and_update_db jsonLoads messages agent_name db can =
        .ok ({ role := "assistant".toList,
               content := e ++ (" Please regenerate mapping and try again.".toList),
               requires_response := true,
               sending_agent := agent_name },
             remove_base_table_remaps db)) ∧
    (∀ (jsonLoads : List Char → Option Remap) (messages : List AgentMessage)
        (agent_name : List Char) (db : RenameDb) (can : Bool)
        (msg : AgentMessage) (db' : RenameDb),
      parse_rename_and_update_db jsonLoads messages agent_name db can
        = .ok (msg, db') →
      msg.requires_response = true →
      db'.pending = [] ∧ db'.tables = db.tables ∧ db'.committed = db.committed ∧
        (db.pending = [] → db' = db)) ∧
    parse_rename_and_update_db scenarioBLoads
        [{ role := "user".toList, content := scenarioBContent }]
        ("SchemaRenamer".toList) scenarioDb true
      = .ok ({ role := "assistant".toList,
               content := "Duplicate column name \x27name\x27 found in table \x27orders\x27. Please regenerate mapping and try again.".toList,
               requires_response := true,
               sending_agent := "SchemaRenamer".toList },
             scenarioDb) := by
  refine ⟨?_, ?_, ?_, ?_⟩
  · intro payload hex
    obtain ⟨t, m, v, hmem, hfind, heq⟩ := dupFold_some payload none hex
    exact ⟨t, m, v, hmem, findDupValue_count hfind, heq⟩
  · intro jl msgs agent db can last jc payload e h1 h2 h3 h4
    unfold parse_rename_and_update_db
    rw [h1]
    dsimp only
    rw [h2]
    dsimp only
    rw [h3]
    dsimp only
    unfold renameAfterParse
    rw [h4]
    dsimp only
    rfl
  · intro jl msgs agent db can msg db' h hr
    unfold parse_rename_and_update_db at h
    split at h
    · exact Except.noConfusion h
    · split at h
      · exact Except.noConfusion h
      · split at h
        · exact Except.noConfusion h
        · rw [Except.ok.injEq] at h
          have hrej := renameAfterParse_rejected agent db _ (by rw [h]; exact hr)
          rw [h] at hrej
          obtain ⟨h1, h2, h3⟩ := hrej
          refine ⟨h1, h2, h3, ?_⟩
          intro hdb
          rcases db' with ⟨ta, ca, pa⟩
          rcases db with ⟨tb, cb, pb⟩
          simp_all
  · decide

/-- C2 witness: the universal rejection statement (conjunct (ii), whose
duplicate report scenario B instantiates) applied at scenario B — the call
returns the naming rejection and the store with pending remaps discarded
(which, `scenarioDb` having none, is `scenarioDb` itself). -/
theorem rename_duplicate_rejected_and_discarded_witness :
    parse_rename_and_update_db scenarioBLoads
        [{ role := "user".toList, content := scenarioBContent }]
        ("SchemaRenamer".toList) scenarioDb true =
      .ok ({ role := "assistant".toList,
             content := dupText ("name".toList) ("orders".toList) ++
               (" Please regenerate mapping and try again.".toList),
             requires_response := true,
             sending_agent := "SchemaRenamer".toList },
           remove_base_table_remaps scenarioDb) :=
  rename_duplicate_rejected_and_discarded.2.1 scenarioBLoads
    [{ role := "user".toList, content := scenarioBContent }]
    ("SchemaRenamer".toList) scenarioDb true
    { role := "user".toList, content := scenarioBContent }
    scenarioBContent scenarioBPayload
    (dupText ("name".toList) ("orders".toList))
    (by decide) (by decide) (by decide) (by decide)

/-- C5 (amended claim, first half): whenever the commit function returns
its confirmation (no retry requested), the set of non-matching foreign
keys over current display names is empty — unconditionally; the code has
no acknowledgment path that accepts a mapping with a persisting mismatch. -/
theorem rename_success_has_no_fk_mismatch :
    ∀ (jsonLoads : List Char → Option Remap) (messages : List AgentMessage)
      (agent_name : List Char) (db : RenameDb) (can : Bool)
      (msg : AgentMessage) (db' : RenameDb),
      parse_rename_and_update_db jsonLoads messages agent_name db can
        = .ok (msg, db') →
      msg.requires_response = false →
      get_non_matching_fks db' = [] := by
  intro jl msgs agent db can msg db' h hr
  unfold parse_rename_and_update_db at h
  split at h
  · exact Except.noConfusion h
  · split at h
    · exact Except.noConfusion h
    · split at h
      · exact Except.noConfusion h
      · rw [Except.ok.injEq] at h
        have hs := renameAfterParse_success agent db _ (by rw [h]; exact hr)
        rw [h] at hs
        simpa using hs

/-- Scenario A: remapping `customers.id` to `cust_id` makes both FK
endpoints display as `cust_id`. -/
def scenarioAPayload : Remap :=
  [("customers".toList, [("id".toList, "cust_id".toList)])]

def scenarioAContent : List Char :=
  "\x7b\"customers\": \x7b\"id\": \"cust_id\"\x7d\x7d".toList

def scenarioALoads : List Char → Option Remap :=
  fun s => if s = scenarioAContent then some scenarioAPayload else none

def scenarioADbAfter : RenameDb :=
  ⟨[ordersTable, customersTable], [], scenarioAPayload⟩

/-- C5 witness: the amended statement applied to the successful scenario A
commit — the committed store has no non-matching foreign keys. -/
theorem rename_success_has_no_fk_mismatch_witness :
    get_non_matching_fks scenarioADbAfter = [] :=
  rename_success_has_no_fk_mismatch scenarioALoads
    [{ role := "user".toList, content := scenarioAContent }]
    ("SchemaRenamer".toList) scenarioDb true
    { role := "assistant".toList,
      content := "The schema has been updated.".toList,
      sending_agent := "SchemaRenamer".toList }
    scenarioADbAfter (by decide) (by decide)

/-- A remap that renames `orders.cust_id` away from the display name of
`customers.id`, producing a persistent FK mismatch. -/
def scenarioFkPayload : Remap :=
  [("orders".toList, [("cust_id".toList, "customer".toList)])]

def scenarioFkContent : List Char :=
  "\x7b\"orders\": \x7b\"cust_id\": \"customer\"\x7d\x7d".toList

def scenarioFkLoads : List Char → Option Remap :=
  fun s => if s = scenarioFkContent then some scenarioFkPayload else none

/-- C5 counterexample: the claim's acknowledgment clause is false — after
the FK-mismatch rejection (which returns the store reset, first conjunct,
and not the confirmation message), resubmitting the *identical* mapping
against the returned store is rejected again with `requires_response` set
(second conjunct, which literally chains the second call on the store
returned by the first), instead of being accepted; `can_reask_again` is
never consulted. -/
theorem rename_identical_resubmission_rejected_again :
    ((parse_rename_and_update_db scenarioFkLoads
        [{ role := "user".toList, content := scenarioFkContent }]
        ("SchemaRenamer".toList) scenarioDb true).map
      (fun p => (p.1.requires_response,
        decide (p.1.content = ("The schema has been updated.".toList)), p.2)))
      = .ok (true, false, scenarioDb) ∧
    ((parse_rename_and_update_db scenarioFkLoads
        [{ role := "user".toList, content := scenarioFkContent }]
        ("SchemaRenamer".toList) scenarioDb true).bind
      (fun p => parse_rename_and_update_db scenarioFkLoads
        [{ role := "user".toList, content := scenarioFkContent }]
        ("SchemaRenamer".toList) p.2 true)).map
      (fun p => (p.1.requires_response,
        decide (p.1.content = ("The schema has been updated.".toList))))
      = .ok (true, false) :=
  ⟨by decide, by decide⟩

theorem pyMax_mem : ∀ {ks : List (List Char)} {m : List Char},
    pyMaxByIntSuffix ks = some m → m ∈ ks := by
  intro ks m h
  cases ks with
  | nil => exact absurd h (by simp [pyMaxByIntSuffix])
  | cons k0 rest =>
    simp only [pyMaxByIntSuffix, Option.some.injEq] at h
    subst h
    exact pyMaxFold_mem rest k0

theorem get_table_isSome_add_view (db : Database) (k v : List Char) :
    (get_table (add_view db k v) k).isSome := by
  unfold get_table add_view
  rw [List.find?_append]
  cases h : db.tables.find? (fun t => decide (t.name = k)) with
  | some t => simp [h]
  | none => simp [h, List.find?_cons]

theorem get_table_isSome_mono (normalize : List Char → List Char)
    (db : Database) (kv : List Char × List Char) (k : List Char)
    (h : (get_table db k).isSome) :
    (get_table (registerStep normalize db kv) k).isSome := by
  unfold registerStep
  cases hg : get_table db kv.1 with
  | some t => exact h
  | none =>
    unfold get_table add_view
    rw [List.find?_append]
    cases hf : db.tables.find? (fun t => decide (t.name = k)) with
    | some t => simp [hf]
    | none =>
      unfold get_table at h
      rw [hf] at h
      exact absurd h (by simp)

theorem get_table_isSome_foldl (normalize : List Char → List Char)
    (items : List (List Char × List Char)) :
    ∀ (db : Database) (k : List Char), (get_table db k).isSome →
      (get_table (items.foldl (registerStep normalize) db) k).isSome := by
  induction items with
  | nil =>
    intro db k h
    exact h
  | cons kv rest ih =>
    intro db k h
    exact ih _ _ (get_table_isSome_mono normalize db kv k h)

theorem foldl_registers_all (normalize : List Char → List Char)
    (items : List (List Char × List Char)) :
    ∀ (db : Database), ∀ kv ∈ items,
      (get_table (items.foldl (registerStep normalize) db) kv.1).isSome := by
  induction items with
  | nil =>
    intro db kv hkv
    cases hkv
  | cons kv0 rest ih =>
    intro db kv hkv
    simp only [List.foldl_cons]
    rcases List.mem_cons.mp hkv with h | h
    · subst h
      apply get_table_isSome_foldl
      unfold registerStep
      cases hg : get_table db kv.1 with
      | some t => rw [hg]; simp
      | none => exact get_table_isSome_add_view db kv.1 _
    · exact ih _ kv h

theorem foldl_skips_when_registered (normalize : List Char → List Char)
    (items : List (List Char × List Char)) :
    ∀ (db : Database), (∀ kv ∈ items, (get_table db kv.1).isSome) →
      items.foldl (registerStep normalize) db = db := by
  induction items with
  | nil =>
    intro db _
    rfl
  | cons kv rest ih =>
    intro db h
    simp only [List.foldl_cons]
    have h0 := h kv (List.mem_cons_self _ _)
    have hstep : registerStep normalize db kv = db := by
      unfold registerStep
      cases hg : get_table db kv.1 with
      | some t => rfl
      | none =>
        rw [hg] at h0
        exact absurd h0 (by simp)
    rw [hstep]
    exact ih db (fun kv' hkv' => h kv' (List.mem_cons_of_mem _ hkv'))

/-- C6: registering the same message again against the database state its
first processing produced is a no-op — every tag hits the already-resolves
skip branch (no duplicate views, `print` aside no observable effect), the
reply is still produced and the database component returned is unchanged. -/
theorem sqlgen_reregistration_idempotent
    (term : List Char) (normalize : List Char → List Char)
    (parse run : List Char → Option (List Char)) (db db1 : Database)
    (content : List Char) (m1 : AgentMessage)
    (h : sqlgen_process term normalize parse run db content = .ok (db1, m1)) :
    (sqlgen_process term normalize parse run db1 content).map (fun p => p.1)
      = .ok db1 := by
  unfold sqlgen_process at h ⊢
  by_cases ht : has_termination_condition content term = true
  · rw [if_pos ht]
    rfl
  · rw [if_neg ht] at h ⊢
    cases hp : parse_sqls content with
    | error e =>
      rw [hp] at h
      dsimp only at h
      exact Except.noConfusion h
    | ok d =>
      rw [hp] at h
      dsimp only at h ⊢
      cases hm : pyMaxByIntSuffix (d.map (fun kv => kv.1)) with
      | none =>
        rw [hm] at h
        dsimp only at h
        exact Except.noConfusion h
      | some lk =>
        rw [hm] at h
        dsimp only at h ⊢
        cases hg : get_table (d.foldl (registerStep normalize) db) lk with
        | none =>
          rw [hg] at h
          dsimp only at h
          exact Except.noConfusion h
        | some t =>
          rw [hg] at h
          dsimp only at h
          rw [Except.ok.injEq] at h
          have hdb : d.foldl (registerStep normalize) db = db1 := congrArg Prod.fst h
          have hall : ∀ kv ∈ d, (get_table db1 kv.1).isSome := by
            intro kv hkv
            rw [← hdb]
            exact foldl_registers_all normalize d db kv hkv
          have hfold : d.foldl (registerStep normalize) db1 = db1 :=
            foldl_skips_when_registered normalize d db1 hall
          rw [hfold]
          have hlk : (get_table db1 lk).isSome := by
            rcases List.mem_map.mp (pyMax_mem hm) with ⟨kv, hkv, hkve⟩
            rw [← hkve]
            exact hall kv hkv
          cases hg2 : get_table db1 lk with
          | none =>
            rw [hg2] at hlk
            exact absurd hlk (by simp)
          | some t2 =>
            rfl

/-- The state produced by processing `<sql1>SELECT * FROM orders</sql1>`
against a store holding only the base table `orders`. -/
def sqlgenDbBefore : Database :=
  ⟨[⟨"orders".toList, none⟩]⟩

def sqlgenDbAfter : Database :=
  ⟨[⟨"orders".toList, none⟩, ⟨"sql1".toList, some ("SELECT * FROM orders".toList)⟩]⟩

/-- C6 witness: the idempotence statement applied to the concrete first
registration of `sql1`, whose hypothesis is discharged by evaluation. -/
theorem sqlgen_reregistration_idempotent_witness :
    (sqlgen_process ("<exit>".toList) id (fun _ => none) (fun _ => none)
        sqlgenDbAfter ("<sql1>SELECT * FROM orders</sql1>".toList)).map
      (fun p => p.1) = .ok sqlgenDbAfter :=
  sqlgen_reregistration_idempotent ("<exit>".toList) id (fun _ => none)
    (fun _ => none) sqlgenDbBefore sqlgenDbAfter
    ("<sql1>SELECT * FROM orders</sql1>".toList)
    { role := "assistant".toList,
      content := "<sql1>SELECT * FROM orders</sql1>".toList,
      display_content := some ("SQL:\nSELECT * FROM orders".toList),
      generating_agent := "SQLGenerator".toList }
    (by decide)

theorem find?_map_update (p : List Char) (ms : List AgentMessage) :
    ∀ (h : MessageHistory),
      (h.map (fun e => if e.1 = p then (p, ms) else e)).find?
          (fun e => decide (e.1 = p)) =
        if h.any (fun e => decide (e.1 = p)) then some (p, ms) else none := by
  intro h
  induction h with
  | nil => simp
  | cons e rest ih =>
    simp only [List.map_cons, List.any_cons]
    by_cases he : e.1 = p
    · rw [if_pos he]
      rw [List.find?_cons_of_pos _ (by simp)]
      simp [he]
    · rw [if_neg he]
      rw [List.find?_cons_of_neg _ (by simp [he])]
      rw [ih]
      simp only [decide_eq_false he, Bool.false_or]

theorem getMsgs_setMsgs_self (h : MessageHistory) (p : List Char)
    (ms : List AgentMessage) : getMsgs (setMsgs h p ms) p = ms := by
  unfold setMsgs
  by_cases hany : h.any (fun e => decide (e.1 = p)) = true
  · rw [if_pos hany]
    unfold getMsgs
    rw [find?_map_update, if_pos hany]
  · rw [if_neg hany]
    unfold getMsgs
    rw [List.find?_append]
    have hnone : h.find? (fun e => decide (e.1 = p)) = none := by
      rw [List.find?_eq_none]
      intro x hx hpx
      exact hany (List.any_eq_true.mpr ⟨x, hx, hpx⟩)
    rw [hnone, Option.none_or, List.find?_cons_of_pos _ (by simp)]

theorem getMsgs_add_message_self (h : MessageHistory) (p role : List Char)
    (msg : AgentMessage) :
    getMsgs (add_message h p role msg) p =
      getMsgs h p ++ [{ msg with role := role }] := by
  unfold add_message
  exact getMsgs_setMsgs_self h p _

/-- C7 (amended claim): the SQL generator's operations only append to the
per-partner history — `send` appends the outgoing message, `receive`
appends the incoming message and the reply, touching nothing already
stored; the schema renamer's `receive`, however, is append-only *except*
that its `generate_reply` overwrites the content of the first stored
message of the partner's log (replacing it with the serialized schema)
before the reply is appended.  No operation truncates a history. -/
theorem histories_append_only_except_renamer_head :
    (∀ (h : MessageHistory) (recipient : List Char) (m : AgentMessage),
      sqlgen_send h recipient (some m) =
        .ok (add_message h recipient ("assistant".toList) m) ∧
      getMsgs (add_message h recipient ("assistant".toList) m) recipient =
        getMsgs h recipient ++ [{ m with role := "assistant".toList }]) ∧
    (∀ (h : MessageHistory) (sender : List Char) (incoming reply : AgentMessage),
      getMsgs (sqlgen_receive_hist h sender incoming reply) sender =
        getMsgs h sender ++ [{ incoming with role := "user".toList },
                             { reply with role := "assistant".toList }]) ∧
    (∀ (schemaText : List Char) (h : MessageHistory) (sender : List Char)
        (incoming reply : AgentMessage),
      getMsgs (schemaRenamer_receive_hist schemaText h sender incoming reply)
          sender =
        overwriteHeadContent (("My schema is\n".toList) ++ schemaText)
            (getMsgs h sender ++ [{ incoming with role := "user".toList }]) ++
          [{ { reply with receiving_agent := sender } with
               role := "assistant".toList }]) := by
  refine ⟨?_, ?_, ?_⟩
  · intro h recipient m
    exact ⟨rfl, getMsgs_add_message_self h recipient _ m⟩
  · intro h sender incoming reply
    unfold sqlgen_receive_hist
    rw [getMsgs_add_message_self, getMsgs_add_message_self, List.append_assoc]
    rfl
  · intro schemaText h sender incoming reply
    unfold schemaRenamer_receive_hist
    rw [getMsgs_add_message_self, getMsgs_setMsgs_self,
      getMsgs_add_message_self]

def schemaCleanRequest : AgentMessage :=
  { role := "user".toList, content := "clean schema".toList }

/-- C7 counterexample: on a fresh history, the schema renamer's `receive`
stores the incoming instruction and then `generate_reply` rewrites the
stored message's content in place (aliasing through
`get_messages(sender)`), so the first stored message no longer carries the
content it was stored with — the history is not append-only. -/
theorem renamer_history_not_append_only :
    (getMsgs (schemaRenamer_receive_hist ("orders (oid)".toList) []
        ("Controller".toList) schemaCleanRequest
        { role := "assistant".toList, content := "ok".toList })
      ("Controller".toList)).head?.map (fun m => m.content)
      = some ("My schema is\norders (oid)".toList) ∧
    schemaCleanRequest.content = "clean schema".toList ∧
    ("My schema is\norders (oid)".toList) ≠ ("clean schema".toList) :=
  ⟨by decide, by decide, by decide⟩
